import Mathlib

/-!
Verification development for the behavior-tree execution engine and the
macro/template parser described in spec.md.  The repository snapshot ships
only the test suites of these two subsystems
(`evennia/contrib/aisystem/tests.py` and
`evennia/utils/tests/test_funcparser.py`); the implementation modules
(`evennia/contrib/aisystem/nodes.py`, `evennia/utils/funcparser.py`) are not
part of the snapshot.  The definitions below are therefore modelled from the
specification, with the in-repository tests used as the authority wherever
they pin concrete behavior.
-/

/-- Status codes of the behavior-tree engine: the return contract of every
node's `update` (spec section 4.2). -/
inductive Status where
  | success
  | failure
  | running
  | error
deriving DecidableEq, Repr

/-- Modelled from the spec: `Selector.update` evaluates children left to
right and returns the first non-FAILURE result, FAILURE only if all children
return FAILURE (spec table, section 4.2).  Children are state transformers so
that evaluation effects (for example blackboard counters) are observable. -/
def selectorUpdate {σ : Type} : List (σ → Status × σ) → σ → Status × σ
  | [], s => (Status.failure, s)
  | c :: rest, s =>
      match c s with
      | (Status.failure, s1) => selectorUpdate rest s1
      | (st, s1) => (st, s1)

/-- Modelled from the spec: `Sequence.update` evaluates children left to
right and returns the first non-SUCCESS result, SUCCESS only if all children
return SUCCESS (spec table, section 4.2). -/
def sequenceUpdate {σ : Type} : List (σ → Status × σ) → σ → Status × σ
  | [], s => (Status.success, s)
  | c :: rest, s =>
      match c s with
      | (Status.success, s1) => sequenceUpdate rest s1
      | (st, s1) => (st, s1)

/-- Specification-side restatement of the selector contract in the spec's own
words ("return first non-FAILURE result"), used to compare against the
engine definition `selectorUpdate`. -/
def specFirstNonFailure : List Status → Status
  | [] => Status.failure
  | st :: rest => if st = Status.failure then specFirstNonFailure rest else st

/-- Specification-side restatement of the sequence contract in the spec's own
words ("return first non-SUCCESS result"). -/
def specFirstNonSuccess : List Status → Status
  | [] => Status.success
  | st :: rest => if st = Status.success then specFirstNonSuccess rest else st

/-- A child that returns a fixed status and leaves the state alone. -/
def pureChild {σ : Type} (st : Status) : σ → Status × σ := fun s => (st, s)

/-- Increment the i-th entry of a list of counters. -/
def bumpAt : List Nat → Nat → List Nat
  | [], _ => []
  | n :: rest, 0 => (n + 1) :: rest
  | n :: rest, i + 1 => n :: bumpAt rest i

/-- A child that bumps its own counter (index `i`) every time it is
evaluated and then returns the fixed status `st`; this mirrors the
`AdderSuccessLeaf`/`AdderFailureLeaf` instrumentation used by the tests. -/
def countingChild (i : Nat) (st : Status) : List Nat → Status × List Nat :=
  fun cs => (st, bumpAt cs i)

/-- Assoc-list lookup with a default, used for the blackboard's per-node
records. -/
def lookupD (l : List (Nat × Nat)) (k d : Nat) : Nat :=
  match l.lookup k with
  | some v => v
  | none => d

/-- Assoc-list update used for the blackboard's per-node records. -/
def updA : List (Nat × Nat) → Nat → Nat → List (Nat × Nat)
  | [], k, v => [(k, v)]
  | (k1, v1) :: rest, k, v =>
      if k1 = k then (k, v) :: rest else (k1, v1) :: updA rest k v

/-- Modelled from the spec: the blackboard carries per-node scratch records
keyed by node hash (here: the counters used by the adder leaves and the
resume indices of the memorized composites) plus the `running_now` /
`running_pre` bookkeeping sequences (spec section 3, Blackboard domain). -/
structure Blackboard where
  counts : List (Nat × Nat)
  mem : List (Nat × Nat)
  runningPre : List Nat
  runningNow : List Nat
deriving DecidableEq, Repr

/-- The empty blackboard produced by a fresh `setup()`. -/
def bb0 : Blackboard := { counts := [], mem := [], runningPre := [], runningNow := [] }

/-- A behavior-tree node as seen by the execution engine: its hash (the
blackboard key) and its `update` function. -/
structure BTChild where
  hash : Nat
  update : Blackboard → Status × Blackboard

/-- Modelled from the spec: engine bookkeeping around a child evaluation; a
child that returns RUNNING has its hash appended to the blackboard's
`running_now` sequence (the active Running path, spec section 3). -/
def runChild (c : BTChild) (bb : Blackboard) : Status × Blackboard :=
  match c.update bb with
  | (Status.running, bb1) =>
      (Status.running, { bb1 with runningNow := bb1.runningNow ++ [c.hash] })
  | r => r

/-- Leaf that increments its counter and returns FAILURE on every tick,
mirroring `AdderFailureLeaf` in the tests. -/
def adderFailureLeaf (h : Nat) : BTChild :=
  { hash := h,
    update := fun bb =>
      (Status.failure, { bb with counts := updA bb.counts h (lookupD bb.counts h 0 + 1) }) }

/-- Leaf that increments its counter and returns SUCCESS on every tick,
mirroring `AdderSuccessLeaf` in the tests. -/
def adderSuccessLeaf (h : Nat) : BTChild :=
  { hash := h,
    update := fun bb =>
      (Status.success, { bb with counts := updA bb.counts h (lookupD bb.counts h 0 + 1) }) }

/-- Leaf that always returns SUCCESS, mirroring `SuccessLeaf`. -/
def successLeaf (h : Nat) : BTChild := { hash := h, update := fun bb => (Status.success, bb) }

/-- Leaf that always returns FAILURE, mirroring `FailureLeaf`. -/
def failureLeaf (h : Nat) : BTChild := { hash := h, update := fun bb => (Status.failure, bb) }

/-- Leaf that always returns RUNNING, mirroring `RunningLeaf`. -/
def runningLeaf (h : Nat) : BTChild := { hash := h, update := fun bb => (Status.running, bb) }

/-- Leaf that always returns ERROR, mirroring `ErrorLeaf`. -/
def errorLeaf (h : Nat) : BTChild := { hash := h, update := fun bb => (Status.error, bb) }

/-- Leaf mirroring the tests' `RunToggleLeaf`: it returns SUCCESS when its
per-node `running` flag is set (here: its hash is on the previous tick's
Running path) and RUNNING otherwise. -/
def runToggleLeaf (h : Nat) : BTChild :=
  { hash := h,
    update := fun bb =>
      if h ∈ bb.runningPre then (Status.success, bb) else (Status.running, bb) }

/-- Modelled from the spec: the iteration core of `MemSelector.update`;
`i` is the absolute index of the first child of the suffix being walked.
On RUNNING the running child's index is recorded in the blackboard under the
composite's hash; on completion or a terminal result the record is reset. -/
def memSelAux (h : Nat) : List BTChild → Nat → Blackboard → Status × Blackboard
  | [], _, bb => (Status.failure, { bb with mem := updA bb.mem h 0 })
  | c :: rest, i, bb =>
      match runChild c bb with
      | (Status.failure, bb1) => memSelAux h rest (i + 1) bb1
      | (Status.running, bb1) => (Status.running, { bb1 with mem := updA bb1.mem h i })
      | (st, bb1) => (st, { bb1 with mem := updA bb1.mem h 0 })

/-- Modelled from the spec: `MemSelector.update` resumes evaluation from the
child index remembered in the blackboard (0 on a fresh iteration), so
siblings preceding the remembered RUNNING child are not re-evaluated in the
resumed pass (spec table, section 4.2). -/
def memSelectorUpdate (h : Nat) (children : List BTChild) (bb : Blackboard) :
    Status × Blackboard :=
  memSelAux h (children.drop (lookupD bb.mem h 0)) (lookupD bb.mem h 0) bb

/-- Modelled from the spec: the iteration core of `MemSequence.update`,
dual to `memSelAux`. -/
def memSeqAux (h : Nat) : List BTChild → Nat → Blackboard → Status × Blackboard
  | [], _, bb => (Status.success, { bb with mem := updA bb.mem h 0 })
  | c :: rest, i, bb =>
      match runChild c bb with
      | (Status.success, bb1) => memSeqAux h rest (i + 1) bb1
      | (Status.running, bb1) => (Status.running, { bb1 with mem := updA bb1.mem h i })
      | (st, bb1) => (st, { bb1 with mem := updA bb1.mem h 0 })

/-- Modelled from the spec: `MemSequence.update`, dual to
`memSelectorUpdate`. -/
def memSequenceUpdate (h : Nat) (children : List BTChild) (bb : Blackboard) :
    Status × Blackboard :=
  memSeqAux h (children.drop (lookupD bb.mem h 0)) (lookupD bb.mem h 0) bb

/-- A MemSelector packaged as a node for use under `tick`. -/
def memSelectorNode (h : Nat) (children : List BTChild) : BTChild :=
  { hash := h, update := fun bb => memSelectorUpdate h children bb }

/-- A MemSequence packaged as a node for use under `tick`. -/
def memSequenceNode (h : Nat) (children : List BTChild) : BTChild :=
  { hash := h, update := fun bb => memSequenceUpdate h children bb }

/-- Modelled from the spec: one tick of the tree; the Root delegates to its
single child, after the `running_now` path of the previous tick is rotated
into `running_pre` (spec sections 3 and 4.2). -/
def tick (c : BTChild) (bb : Blackboard) : Status × Blackboard :=
  runChild c { bb with runningPre := bb.runningNow, runningNow := [] }

/-- Modelled from the spec and the repository test: `Repeater.update`
invokes its child `repeats` times within a single tick, with no RUNNING
yield between repeats; a RUNNING or ERROR repetition is returned
immediately, and after all repetitions complete the node returns SUCCESS.
The post-loop SUCCESS (rather than the final repetition's own result) is
pinned by `test_repeater` in `evennia/contrib/aisystem/tests.py`, which
drives a Repeater with `repeats = 3` over an always-FAILURE counting child
and asserts a SUCCESS result with the child's counter at 3. -/
def repeaterUpdate : Nat → BTChild → Blackboard → Status × Blackboard
  | 0, _, bb => (Status.success, bb)
  | n + 1, c, bb =>
      match runChild c bb with
      | (Status.running, bb1) => (Status.running, bb1)
      | (Status.error, bb1) => (Status.error, bb1)
      | (_, bb1) => repeaterUpdate n c bb1

/-- Modelled from the spec: `Failer.update` forces FAILURE regardless of the
child's SUCCESS or FAILURE result and passes RUNNING/ERROR through unchanged
(spec table, section 4.2). -/
def failerUpdate (c : BTChild) (bb : Blackboard) : Status × Blackboard :=
  match runChild c bb with
  | (Status.success, bb1) => (Status.failure, bb1)
  | (Status.failure, bb1) => (Status.failure, bb1)
  | r => r

/-- Modelled from the spec: `Succeeder.update` forces SUCCESS regardless of
the child's SUCCESS or FAILURE result and passes RUNNING/ERROR through
unchanged (spec table, section 4.2). -/
def succeederUpdate (c : BTChild) (bb : Blackboard) : Status × Blackboard :=
  match runChild c bb with
  | (Status.success, bb1) => (Status.success, bb1)
  | (Status.failure, bb1) => (Status.success, bb1)
  | r => r

/-- Evaluate every child in order (no short-circuit), collecting the list of
child statuses, as the Parallel node does each tick. -/
def runAll : List BTChild → Blackboard → List Status × Blackboard
  | [], bb => ([], bb)
  | c :: rest, bb =>
      let r := runChild c bb
      let rs := runAll rest r.2
      (r.1 :: rs.1, rs.2)

/-- Count the occurrences of a status in a list of child statuses. -/
def countSt : List Status → Status → Nat
  | [], _ => 0
  | s :: rest, t => (if s = t then 1 else 0) + countSt rest t

/-- True when an optional threshold is set and met. -/
def thresholdMet : Option Nat → Nat → Bool
  | none, _ => false
  | some r, n => r ≤ n

/-- Modelled from the spec: the Parallel node's return policy over the list
of child statuses gathered in one tick (spec table, section 4.2): an
authoritative `primary_child` SUCCESS/FAILURE first, then the
`req_successes` and `req_failures` thresholds, then ERROR, then RUNNING,
then the `default_success` boolean. -/
def parallelDecide (primary : Option Nat) (reqS reqF : Option Nat) (defS : Bool)
    (sts : List Status) : Status :=
  match primary.bind (fun i => sts.get? i) with
  | some Status.success => Status.success
  | some Status.failure => Status.failure
  | _ =>
      if thresholdMet reqS (countSt sts Status.success) then Status.success
      else if thresholdMet reqF (countSt sts Status.failure) then Status.failure
      else if Status.error ∈ sts then Status.error
      else if Status.running ∈ sts then Status.running
      else if defS then Status.success else Status.failure

/-- Modelled from the spec: `Parallel.update` evaluates every child every
tick (no short-circuit) and then applies the return policy. -/
def parallelUpdate (primary : Option Nat) (reqS reqF : Option Nat) (defS : Bool)
    (children : List BTChild) (bb : Blackboard) : Status × Blackboard :=
  let r := runAll children bb
  (parallelDecide primary reqS reqF defS r.1, r.2)

/-- Kind tag of a behavior-tree node: Root, Composite, Decorator or Leaf
(spec section 3, Node). -/
inductive NKind where
  | root
  | composite
  | decorator
  | leaf
deriving DecidableEq, Repr

/-- A node of the tree structure: display name, kind, parent back-reference
and children (a Composite holds an ordered sequence; a Root or Decorator
holds at most one child; a Leaf holds none).  Nodes are identified by their
hash, the key of the tree's registry (spec section 3). -/
structure TNode where
  name : String
  kind : NKind
  parent : Option Nat
  children : List Nat
deriving DecidableEq, Repr

/-- A behavior tree: the `nodes` registry (hash to node) and the root hash
(spec section 3, BTree). -/
structure BTree where
  nodes : List (Nat × TNode)
  root : Nat
deriving DecidableEq, Repr

/-- Registry lookup by hash. -/
def BTree.find? (t : BTree) (h : Nat) : Option TNode := t.nodes.lookup h

/-- Assoc-list update for the registry (insert or replace). -/
def updNodes : List (Nat × TNode) → Nat → TNode → List (Nat × TNode)
  | [], h, n => [(h, n)]
  | (k, m) :: rest, h, n =>
      if k = h then (h, n) :: rest else (k, m) :: updNodes rest h n

/-- Replace (or insert) one node of the registry. -/
def setNode (t : BTree) (h : Nat) (n : TNode) : BTree :=
  { t with nodes := updNodes t.nodes h n }

/-- Remove a set of hashes from the registry. -/
def removeKeys (t : BTree) (hs : List Nat) : BTree :=
  { t with nodes := t.nodes.filter (fun p => decide (p.1 ∉ hs)) }

/-- A hash not yet present in a list of used hashes.  The source assigns
hashes pseudo-randomly with collision avoidance; the model only relies on
freshness, realized as one more than the maximum used hash. -/
def freshFrom (used : List Nat) : Nat := used.foldr max 0 + 1

/-- The hashes registered in a tree. -/
def BTree.keys (t : BTree) : List Nat := t.nodes.map Prod.fst

/-- A hash fresh for a tree's registry. -/
def freshHash (t : BTree) : Nat := freshFrom t.keys

/-- Insert a child hash into a composite's children sequence at an optional
position (append when the position is omitted). -/
def insertChild (cs : List Nat) (h : Nat) : Option Nat → List Nat
  | none => cs ++ [h]
  | some p => cs.take p ++ h :: cs.drop p

/-- Modelled from the spec: constructing a node with a tree and a parent
argument (for example `LeafNode(name, tree, parent)`, optionally with a
`position`) registers the new node in the tree's registry under a freshly
assigned hash and attaches it to the parent: appended to (or positioned in)
a Composite parent's children, or filling a Root/Decorator parent's single
child slot, with the node's parent back-reference set — all without any call
to `add()` (spec section 3 and the constructions throughout the tests).
Returns the updated tree and the new node's hash; a parent hash that is not
in the registry leaves the tree untouched. -/
def mkNode (kind : NKind) (nm : String) (t : BTree) (parentHash : Nat)
    (pos : Option Nat) : BTree × Nat :=
  let h := freshHash t
  match t.find? parentHash with
  | none => (t, h)
  | some p =>
      let node : TNode :=
        { name := nm, kind := kind, parent := some parentHash, children := [] }
      let t1 : BTree := { t with nodes := t.nodes ++ [(h, node)] }
      let p1 : TNode :=
        match p.kind with
        | NKind.composite => { p with children := insertChild p.children h pos }
        | _ => { p with children := [h] }
      (setNode t1 parentHash p1, h)

/-- A fresh tree holding only its root node, as produced by
`create_script(BehaviorTree)`. -/
def emptyTree : BTree :=
  { nodes := [(1, { name := "root", kind := NKind.root, parent := none, children := [] })],
    root := 1 }

/-- An argument to a mutation operation: either a node object (carrying the
hash and the kind that an `isinstance` check would see) or something that is
not a node at all (the tests pass tree objects to provoke
`InvalidNodeError`). -/
inductive Arg where
  | node (h : Nat) (k : NKind)
  | notNode
deriving DecidableEq, Repr

/-- Hashes of a subtree (root hash first), gathered through the registry
with explicit fuel to bound the traversal. -/
def subtreeAux (t : BTree) : Nat → List Nat → List Nat
  | 0, _ => []
  | _ + 1, [] => []
  | fuel + 1, h :: queue =>
      match t.find? h with
      | none => subtreeAux t fuel queue
      | some n => h :: subtreeAux t fuel (queue ++ n.children)

/-- Fuel that suffices for any traversal of a well-formed registry. -/
def treeFuel (t : BTree) : Nat :=
  t.nodes.length + (t.nodes.map (fun p => p.2.children.length)).foldr (· + ·) 0 + 1

/-- Hashes of the subtree rooted at `h`. -/
def subtreeHashes (t : BTree) (h : Nat) : List Nat := subtreeAux t (treeFuel t) [h]

/-- Hash reassignment for a copied subtree (spec section 3, hash collision
rule): every copied node whose hash is already used receives a fresh hash;
the assignment is propagated consistently across the whole copied subtree. -/
def assignHashes (used : List Nat) : List Nat → List (Nat × Nat)
  | [] => []
  | h :: rest =>
      if h ∈ used then
        let nh := freshFrom used
        (h, nh) :: assignHashes (nh :: used) rest
      else
        (h, h) :: assignHashes (h :: used) rest

/-- Apply a hash mapping, keeping unmapped hashes unchanged. -/
def mapHash (m : List (Nat × Nat)) (h : Nat) : Nat :=
  match m.lookup h with
  | some nh => nh
  | none => h

/-- Build the registry entries of a copied subtree under a hash mapping; the
copy of the subtree root is re-parented under `newParent`. -/
def cloneEntries (src : BTree) (m : List (Nat × Nat)) (rootH newParent : Nat) :
    List Nat → List (Nat × TNode)
  | [] => []
  | h :: rest =>
      match src.find? h with
      | none => cloneEntries src m rootH newParent rest
      | some n =>
          (mapHash m h,
            { n with
              parent := if h = rootH then some newParent else n.parent.map (mapHash m),
              children := n.children.map (mapHash m) }) ::
            cloneEntries src m rootH newParent rest

/-- Attach hash `ch` under the node `destH` of tree `t` (which must hold
`destN`): positioned insertion for a Composite destination, the single child
slot for a Root/Decorator destination. -/
def attachChild (t : BTree) (destH : Nat) (destN : TNode) (ch : Nat)
    (pos : Option Nat) : BTree :=
  match destN.kind with
  | NKind.composite => setNode t destH { destN with children := insertChild destN.children ch pos }
  | _ => setNode t destH { destN with children := [ch] }

/-- Detach the node `h` (with registry entry `n`) from its parent in `t`:
the parent's children sequence drops `h`. -/
def detachChild (t : BTree) (h : Nat) (n : TNode) : BTree :=
  match n.parent with
  | none => t
  | some ph =>
      match t.find? ph with
      | none => t
      | some pn => setNode t ph { pn with children := pn.children.erase h }


/-- Swap two hashes inside a children sequence. -/
def swapInList (l : List Nat) (x y : Nat) : List Nat :=
  l.map (fun z => if z = x then y else if z = y then x else z)

/-- Replace one hash by another inside a children sequence. -/
def replaceInList (l : List Nat) (x y : Nat) : List Nat :=
  l.map (fun z => if z = x then y else z)

/-- Modelled from the spec: `Tree.add(node, destination, position, copying,
source_tree)` (spec section 4.1).  All validity checks precede any mutation;
every failure returns a descriptive error string and both trees unchanged
(the all-or-nothing guarantee).  `src = none` means `source_tree` is the
tree itself.  Returns (error?, updated self, updated source tree). -/
def addOp (self : BTree) (nodeA destA : Arg) (pos : Option Nat) (copying : Bool)
    (src : Option BTree) : Option String × BTree × Option BTree :=
  match nodeA, destA with
  | Arg.notNode, _ => (some "InvalidNodeError: the object to be added is not a node", self, src)
  | _, Arg.notNode => (some "InvalidNodeError: the destination is not a node", self, src)
  | Arg.node hn kn, Arg.node hd kd =>
      if kn = NKind.root then
        (some "RootNodeError: a root node cannot be added to another node", self, src)
      else if src.isNone && hn == hd then
        (some "RootNodeError: a node cannot be added to itself", self, src)
      else
        let srcT := src.getD self
        match srcT.find? hn with
        | none => (some "WrongTreeError: the source tree does not contain the node", self, src)
        | some nodeN =>
            match self.find? hd with
            | none => (some "InvalidNodeError: the destination is not in this tree", self, src)
            | some destN =>
                if kd = NKind.leaf then
                  (some "InvalidDestinationError: cannot add a node to a leaf node", self, src)
                else if (kd = NKind.root || kd = NKind.decorator) && !destN.children.isEmpty then
                  (some "InvalidDestinationError: the destination already has a child", self, src)
                else if copying then
                  let hs := subtreeHashes srcT hn
                  let m := assignHashes self.keys hs
                  let entries := cloneEntries srcT m hn hd hs
                  let t1 : BTree := { self with nodes := self.nodes ++ entries }
                  (none, attachChild t1 hd destN (mapHash m hn) pos, src)
                else
                  match src with
                  | none =>
                      let t1 := detachChild self hn nodeN
                      let t2 :=
                        match t1.find? hd with
                        | some destN1 => attachChild t1 hd destN1 hn pos
                        | none => t1
                      (none, setNode t2 hn { nodeN with parent := some hd }, none)
                  | some srcT0 =>
                      let hs := subtreeHashes srcT0 hn
                      let entries := hs.filterMap
                        (fun k => (srcT0.find? k).map (fun n => (k, n)))
                      let srcT1 := removeKeys (detachChild srcT0 hn nodeN) hs
                      let t1 : BTree := { self with nodes := self.nodes ++ entries }
                      let t2 := attachChild t1 hd destN hn pos
                      (none, setNode t2 hn { nodeN with parent := some hd }, some srcT1)

/-- Modelled from the spec: `Tree.remove(node)` detaches the node from its
parent and removes it and every descendant from the registry; a non-node
argument, a node that is not in the registry, or the root node yields an
error string with no mutation (spec section 4.1). -/
def removeOp (self : BTree) (nodeA : Arg) : Option String × BTree :=
  match nodeA with
  | Arg.notNode => (some "InvalidNodeError: the object to be removed is not a node", self)
  | Arg.node h _ =>
      match self.find? h with
      | none => (some "NotInTreeError: the node is not in this tree's registry", self)
      | some n =>
          if n.kind = NKind.root then
            (some "RootNodeError: the root node cannot be removed", self)
          else
            (none, removeKeys (detachChild self h n) (subtreeHashes self h))

/-- Modelled from the spec: `Tree.shift(node, position)` moves a node within
its Composite parent's children sequence (append when the position is
omitted); a non-node argument or a parent that is not a Composite (including
Root and Decorator parents) yields an error string with no mutation (spec
section 4.1). -/
def shiftOp (self : BTree) (nodeA : Arg) (pos : Option Nat) : Option String × BTree :=
  match nodeA with
  | Arg.notNode => (some "InvalidNodeError: the object to be shifted is not a node", self)
  | Arg.node h _ =>
      match self.find? h with
      | none => (some "NotInTreeError: the node is not in this tree's registry", self)
      | some n =>
          match n.parent with
          | none => (some "InvalidNodeError: the node has no parent to shift within", self)
          | some ph =>
              match self.find? ph with
              | none => (some "NotInTreeError: the node's parent is not in the registry", self)
              | some pn =>
                  if pn.kind = NKind.composite then
                    (none, setNode self ph
                      { pn with children := insertChild (pn.children.erase h) h pos })
                  else
                    (some "InvalidNodeError: the node's parent is not a composite node", self)

/-- Modelled from the spec: `Tree.swap(node_a, node_b, source_tree)`
exchanges the positions and parent pointers of two nodes, possibly across
trees; swapping a node with itself is a no-op success; a non-node argument
or a Root node on either side yields an error string with no mutation (spec
section 4.1).  `node_a` is resolved in `source_tree`, `node_b` in the tree
itself. -/
def swapOp (self : BTree) (aA bA : Arg) (src : Option BTree) :
    Option String × BTree × Option BTree :=
  match aA, bA with
  | Arg.notNode, _ => (some "InvalidNodeError: the first object is not a node", self, src)
  | _, Arg.notNode => (some "InvalidNodeError: the second object is not a node", self, src)
  | Arg.node ha ka, Arg.node hb kb =>
      if ka = NKind.root || kb = NKind.root then
        (some "RootNodeError: a root node cannot be swapped", self, src)
      else if src.isNone && ha == hb then
        (none, self, src)
      else
        let srcT := src.getD self
        match srcT.find? ha with
        | none => (some "WrongTreeError: the source tree does not contain the first node", self, src)
        | some na =>
            match self.find? hb with
            | none => (some "NotInTreeError: this tree does not contain the second node", self, src)
            | some nb =>
                match src with
                | none =>
                    let t1 :=
                      match na.parent with
                      | none => self
                      | some pa =>
                          match self.find? pa with
                          | none => self
                          | some pan => setNode self pa
                              { pan with children := swapInList pan.children ha hb }
                    let t2 :=
                      if nb.parent = na.parent then t1
                      else
                        match nb.parent with
                        | none => t1
                        | some pb =>
                            match t1.find? pb with
                            | none => t1
                            | some pbn => setNode t1 pb
                                { pbn with children := swapInList pbn.children ha hb }
                    let t3 := setNode t2 ha { na with parent := nb.parent }
                    (none, setNode t3 hb { nb with parent := na.parent }, none)
                | some srcT0 =>
                    let hsA := subtreeHashes srcT0 ha
                    let entriesA := hsA.filterMap
                      (fun k => (srcT0.find? k).map (fun n => (k, n)))
                    let hsB := subtreeHashes self hb
                    let entriesB := hsB.filterMap
                      (fun k => (self.find? k).map (fun n => (k, n)))
                    let selfR : BTree :=
                      { removeKeys self hsB with
                        nodes := (removeKeys self hsB).nodes ++ entriesA }
                    let selfR :=
                      match nb.parent with
                      | none => selfR
                      | some pb =>
                          match selfR.find? pb with
                          | none => selfR
                          | some pbn => setNode selfR pb
                              { pbn with children := replaceInList pbn.children hb ha }
                    let selfR := setNode selfR ha { na with parent := nb.parent }
                    let srcR : BTree :=
                      { removeKeys srcT0 hsA with
                        nodes := (removeKeys srcT0 hsA).nodes ++ entriesB }
                    let srcR :=
                      match na.parent with
                      | none => srcR
                      | some pa =>
                          match srcR.find? pa with
                          | none => srcR
                          | some pan => setNode srcR pa
                              { pan with children := replaceInList pan.children ha hb }
                    let srcR := setNode srcR hb { nb with parent := na.parent }
                    (none, selfR, some srcR)

/-- Modelled from the spec: `Tree.interpose(node, target, position, copying,
source_tree)` inserts the node (or a copy) as the new parent of the target;
a non-node argument, a Root node or target, the node being the target
itself, or a Leaf node yields an error string with no mutation (spec section
4.1). -/
def interposeOp (self : BTree) (nodeA targetA : Arg) (pos : Option Nat)
    (copying : Bool) (src : Option BTree) : Option String × BTree × Option BTree :=
  match nodeA, targetA with
  | Arg.notNode, _ => (some "InvalidNodeError: the object to be interposed is not a node", self, src)
  | _, Arg.notNode => (some "InvalidNodeError: the target is not a node", self, src)
  | Arg.node hn kn, Arg.node ht kt =>
      if kn = NKind.root then
        (some "RootNodeError: a root node cannot be interposed", self, src)
      else if kt = NKind.root then
        (some "RootNodeError: cannot interpose onto a root node", self, src)
      else if src.isNone && hn == ht then
        (some "InvalidNodeError: a node cannot be interposed onto itself", self, src)
      else if kn = NKind.leaf then
        (some "InvalidNodeError: a leaf node cannot parent the target", self, src)
      else
        let srcT := src.getD self
        match srcT.find? hn with
        | none => (some "WrongTreeError: the source tree does not contain the node", self, src)
        | some nodeN =>
            match self.find? ht with
            | none => (some "NotInTreeError: the target is not in this tree", self, src)
            | some tn =>
                match tn.parent with
                | none => (some "InvalidNodeError: the target has no parent", self, src)
                | some ph =>
                    match self.find? ph with
                    | none => (some "NotInTreeError: the target's parent is not in the registry", self, src)
                    | some phn =>
                        if copying then
                          let hs := subtreeHashes srcT hn
                          let m := assignHashes self.keys hs
                          let entries := cloneEntries srcT m hn ph hs
                          let newH := mapHash m hn
                          let newChildren :=
                            match kn with
                            | NKind.composite =>
                                insertChild (nodeN.children.map (mapHash m)) ht pos
                            | _ => [ht]
                          let t1 : BTree := { self with nodes := self.nodes ++ entries }
                          let t2 := setNode t1 ph
                            { phn with children := replaceInList phn.children ht newH }
                          let t3 := setNode t2 newH
                            { nodeN with parent := some ph, children := newChildren }
                          (none, setNode t3 ht { tn with parent := some newH }, src)
                        else
                          let newChildren :=
                            match kn with
                            | NKind.composite => insertChild nodeN.children ht pos
                            | _ => [ht]
                          match src with
                          | none =>
                              let t1 := detachChild self hn nodeN
                              let t2 :=
                                match t1.find? ph with
                                | some phn1 => setNode t1 ph
                                    { phn1 with children := replaceInList phn1.children ht hn }
                                | none => t1
                              let t3 := setNode t2 hn
                                { nodeN with parent := some ph, children := newChildren }
                              (none, setNode t3 ht { tn with parent := some hn }, none)
                          | some srcT0 =>
                              let hs := subtreeHashes srcT0 hn
                              let entries := hs.filterMap
                                (fun k => (srcT0.find? k).map (fun n => (k, n)))
                              let srcT1 := removeKeys (detachChild srcT0 hn nodeN) hs
                              let t1 : BTree := { self with nodes := self.nodes ++ entries }
                              let t2 := setNode t1 ph
                                { phn with children := replaceInList phn.children ht hn }
                              let t3 := setNode t2 hn
                                { nodeN with parent := some ph, children := newChildren }
                              (none, setNode t3 ht { tn with parent := some hn }, some srcT1)

/-- A value produced by a macro callable: either a string or a native
(non-string) numeric value, as returned by literal-producing callables such
as `$lit`. -/
inductive PVal where
  | str (s : String)
  | num (n : Nat)
deriving DecidableEq, Repr

/-- Stringification of a callable's return value when it is inserted into
surrounding text. -/
def pvalToString : PVal → String
  | PVal.str s => s
  | PVal.num n => toString n

/-- The type of a registered macro callable: positional arguments and
keyword arguments in, value out. -/
def PCallable : Type := List String → List (String × String) → PVal

/-- A callable table: a mapping from normalized function name to callable. -/
def CallTable : Type := List (String × PCallable)

/-- Keyword-argument update (insert or replace, keeping base order). -/
def updK : List (String × String) → String → String → List (String × String)
  | [], k, v => [(k, v)]
  | (k1, v1) :: rest, k, v =>
      if k1 = k then (k, v) :: rest else (k1, v1) :: updK rest k v

/-- Merge keyword arguments: entries of `upd` override entries of `base`;
keys new in `upd` are appended in order. -/
def mergeK (base upd : List (String × String)) : List (String × String) :=
  upd.foldl (fun acc kv => updK acc kv.1 kv.2) base

/-- Whitespace recognizer used when trimming argument and name text. -/
def isWhite (c : Char) : Bool := c = ' ' || c = '\t' || c = '\n' || c = '\r'

/-- Strip leading and trailing whitespace (a structurally recursive
counterpart of string trimming, so that proofs can evaluate it). -/
def trimStr (s : String) : String :=
  String.mk (((s.data.dropWhile isWhite).reverse.dropWhile isWhite).reverse)

/-- Lower-case a string character by character. -/
def lowerStr (s : String) : String := String.mk (s.data.map Char.toLower)

/-- Normalization of a macro function name: names are matched
case/space-insensitively (spec section 4.4). -/
def normName (s : String) : String := lowerStr (trimStr s)

/-- Characters allowed in a `$name` of a macro call (the scanner accepts
alphanumerics, spaces and underscores before the opening parenthesis). -/
def isNameChar (c : Char) : Bool := c.isAlphanum || c = ' ' || c = '_'

/-- A completed top-level piece of a parsed string: literal text or the
value of an executed call. -/
inductive Seg where
  | txt (s : String)
  | val (v : PVal)
deriving DecidableEq, Repr

/-- An open (not yet closed) `$name(` call during scanning: its normalized
lookup name, the raw source text consumed so far (re-emitted verbatim when
the call never closes), the finished positional and keyword arguments, the
pending keyword key, the current argument buffer, whether the current
argument contained a quoted section, the active quote character, and the
plain-parenthesis nesting depth inside the arguments. -/
structure OpenCall where
  name : String
  raw : String
  doneArgs : List String
  doneKwargs : List (String × String)
  curKey : Option String
  buf : String
  quoted : Bool
  quote : Option Char
  depth : Nat
deriving DecidableEq, Repr

/-- Scanner mode: plain text, accumulating a candidate `$name`, or a pending
backslash escape. -/
inductive SMode where
  | plain
  | name (acc : String)
  | esc
deriving DecidableEq, Repr

/-- Scanner state: completed segments, pending top-level text, the stack of
open calls (innermost first) and the mode. -/
structure PState where
  out : List Seg
  curText : String
  stack : List OpenCall
  mode : SMode
deriving DecidableEq, Repr

/-- The initial scanner state. -/
def pInit : PState := { out := [], curText := "", stack := [], mode := SMode.plain }

/-- Append literal text to the current sink: the argument buffer (and raw
text) of the innermost open call, or the pending top-level text. -/
def pushText (st : PState) (s : String) : PState :=
  match st.stack with
  | [] => { st with curText := st.curText ++ s }
  | oc :: rest =>
      { st with stack := { oc with buf := oc.buf ++ s, raw := oc.raw ++ s } :: rest }

/-- Finalize the value of the current argument buffer: surrounding
whitespace is stripped unless the argument contained a quoted section. -/
def argValue (oc : OpenCall) : String := if oc.quoted then oc.buf else trimStr oc.buf

/-- Close out the current argument buffer into the open call's finished
positional or keyword arguments (used at `,` separators and at the closing
parenthesis). -/
def finishArg (oc : OpenCall) (atClose : Bool) : OpenCall :=
  match oc.curKey with
  | some k =>
      { oc with
        doneKwargs := oc.doneKwargs ++ [(k, argValue oc)],
        curKey := none, buf := "", quoted := false }
  | none =>
      if atClose && trimStr oc.buf = "" && !oc.quoted && oc.doneArgs.isEmpty
          && oc.doneKwargs.isEmpty then
        oc
      else
        { oc with doneArgs := oc.doneArgs ++ [argValue oc], buf := "", quoted := false }

/-- Modelled from the spec: execute a completed call (spec sections 4.4 and
7).  The callable receives the construction-time default kwargs, overridden
by the kwargs written literally in the call expression, overridden by the
kwargs given at `parse()`-call time.  An unknown function name yields
`Except.error` (a `ParsingError`) when `raiseErrors` is set and `none`
(meaning: re-emit the raw call text verbatim) otherwise. -/
def execCall (tbl : CallTable) (raiseErrors : Bool)
    (defaults calltime : List (String × String)) (oc : OpenCall) :
    Except String (Option PVal) :=
  let oc1 := finishArg oc true
  match tbl.lookup (normName oc1.name) with
  | none =>
      if raiseErrors then
        Except.error ("ParsingError: unknown function name in " ++ oc1.raw ++ ")")
      else
        Except.ok none
  | some f =>
      Except.ok (some (f oc1.doneArgs (mergeK (mergeK defaults oc1.doneKwargs) calltime)))

/-- Flush the pending top-level text into the completed segments. -/
def flushText (st : PState) : PState :=
  if st.curText = "" then st
  else { st with out := st.out ++ [Seg.txt st.curText], curText := "" }

/-- Close the innermost open call with its result rendered as `s` when it
is to be kept as text (unknown name) or as a value `v`: the result is
emitted as a top-level segment when the stack empties, or appended to the
surrounding call's argument buffer and raw text otherwise. -/
def closeWith (st : PState) (rest : List OpenCall) (r : Except String (Option PVal))
    (raw : String) : Except String PState :=
  match r with
  | Except.error e => Except.error e
  | Except.ok none =>
      Except.ok (pushText { st with stack := rest } (raw ++ ")"))
  | Except.ok (some v) =>
      match rest with
      | [] =>
          let st1 := flushText { st with stack := [] }
          Except.ok { st1 with out := st1.out ++ [Seg.val v] }
      | _ => Except.ok (pushText { st with stack := rest } (pvalToString v))

/-- One scanner transition in plain mode (no pending escape, not inside a
candidate name). -/
def feedPlain (tbl : CallTable) (raiseErrors : Bool)
    (defaults calltime : List (String × String)) (st : PState) (c : Char) :
    Except String PState :=
  match st.stack with
  | [] =>
      if c = '\\' then Except.ok { st with mode := SMode.esc }
      else if c = '$' then Except.ok { st with mode := SMode.name "" }
      else Except.ok (pushText st (String.singleton c))
  | oc :: rest =>
      match oc.quote with
      | some q =>
          if c = q then
            Except.ok { st with stack :=
              { oc with quote := none, raw := oc.raw ++ String.singleton c } :: rest }
          else if c = '\\' then Except.ok { st with mode := SMode.esc }
          else if c = '$' then Except.ok { st with mode := SMode.name "" }
          else Except.ok (pushText st (String.singleton c))
      | none =>
          if c = '\\' then Except.ok { st with mode := SMode.esc }
          else if c = '$' then Except.ok { st with mode := SMode.name "" }
          else if c = '\'' || c = '\"' then
            Except.ok { st with stack :=
              { oc with
                quote := some c, quoted := true,
                raw := oc.raw ++ String.singleton c } :: rest }
          else if c = ',' && oc.depth = 0 then
            Except.ok { st with stack :=
              { finishArg oc false with raw := oc.raw ++ "," } :: rest }
          else if c = '=' && oc.depth = 0 && oc.curKey.isNone then
            Except.ok { st with stack :=
              { oc with
                curKey := some (argValue oc), buf := "", quoted := false,
                raw := oc.raw ++ "=" } :: rest }
          else if c = '(' then
            Except.ok { st with stack :=
              { oc with
                depth := oc.depth + 1, buf := oc.buf ++ "(",
                raw := oc.raw ++ "(" } :: rest }
          else if c = ')' then
            if oc.depth = 0 then
              closeWith st rest (execCall tbl raiseErrors defaults calltime oc) oc.raw
            else
              Except.ok { st with stack :=
                { oc with
                  depth := oc.depth - 1, buf := oc.buf ++ ")",
                  raw := oc.raw ++ ")" } :: rest }
          else Except.ok (pushText st (String.singleton c))

/-- One full scanner transition. -/
def stepChar (tbl : CallTable) (raiseErrors : Bool)
    (defaults calltime : List (String × String)) (st : PState) (c : Char) :
    Except String PState :=
  match st.mode with
  | SMode.esc => Except.ok (pushText { st with mode := SMode.plain } (String.singleton c))
  | SMode.name acc =>
      if isNameChar c then Except.ok { st with mode := SMode.name (acc ++ String.singleton c) }
      else if c = '(' && acc ≠ "" then
        Except.ok { st with mode := SMode.plain, stack :=
          { name := acc, raw := "$" ++ acc ++ "(", doneArgs := [], doneKwargs := [],
            curKey := none, buf := "", quoted := false, quote := none,
            depth := 0 } :: st.stack }
      else if c = '$' && acc = "" then
        Except.ok (pushText { st with mode := SMode.plain } "$")
      else
        feedPlain tbl raiseErrors defaults calltime
          (pushText { st with mode := SMode.plain } ("$" ++ acc)) c
  | SMode.plain => feedPlain tbl raiseErrors defaults calltime st c

/-- Scan a character list, threading the scanner state and propagating a
raised `ParsingError`. -/
def scanChars (tbl : CallTable) (raiseErrors : Bool)
    (defaults calltime : List (String × String)) :
    List Char → PState → Except String PState
  | [], st => Except.ok st
  | c :: cs, st =>
      match stepChar tbl raiseErrors defaults calltime st c with
      | Except.error e => Except.error e
      | Except.ok st1 => scanChars tbl raiseErrors defaults calltime cs st1

/-- Finalize a scan: dangling open calls (malformed syntax: a `$name(` that
never closed) are re-emitted verbatim as ordinary text, as is a pending
`$name` candidate or trailing backslash. -/
def finishScan (st : PState) : List Seg :=
  let pend :=
    match st.mode with
    | SMode.name acc => "$" ++ acc
    | SMode.esc => "\\"
    | SMode.plain => ""
  match st.stack with
  | [] =>
      let t := st.curText ++ pend
      st.out ++ (if t = "" then [] else [Seg.txt t])
  | stack =>
      let raws := String.join ((stack.reverse).map OpenCall.raw)
      st.out ++ [Seg.txt (st.curText ++ raws ++ pend)]

/-- Modelled from the spec: the macro parser's FuncParser, holding the
callable table and the default kwargs supplied at construction time. -/
structure FuncParser where
  tbl : CallTable
  defaults : List (String × String)

/-- Scan an input string into its top-level segments. -/
def parseSegs (p : FuncParser) (s : String) (raiseErrors : Bool)
    (calltime : List (String × String)) : Except String (List Seg) :=
  match scanChars p.tbl raiseErrors p.defaults calltime s.data pInit with
  | Except.error e => Except.error e
  | Except.ok st => Except.ok (finishScan st)

/-- Concatenate segments back into a single string. -/
def stringifySegs (segs : List Seg) : String :=
  String.join (segs.map (fun sg =>
    match sg with
    | Seg.txt t => t
    | Seg.val v => pvalToString v))

/-- Modelled from the spec: `FuncParser.parse` — expand every recognized
call and return the resulting string; a `ParsingError` (under
`raise_errors=True`, for an unknown function name) surfaces as
`Except.error` (spec section 4.4). -/
def FuncParser.parse (p : FuncParser) (s : String) (raiseErrors : Bool)
    (calltime : List (String × String)) : Except String String :=
  match parseSegs p s raiseErrors calltime with
  | Except.error e => Except.error e
  | Except.ok segs => Except.ok (stringifySegs segs)

/-- Projection of a segment to its value part. -/
def segVal? : Seg → Option PVal
  | Seg.val v => some v
  | Seg.txt _ => none

/-- Projection of a segment to its text part. -/
def segTxt? : Seg → Option String
  | Seg.txt t => some t
  | Seg.val _ => none

/-- Modelled from the spec: the value selection of `parse_to_any` — when,
after trimming, the entire input was exactly one call expression (one value
segment surrounded only by whitespace text), the call's native return value
is returned unconverted; any other shape of input yields a string (spec
section 4.4). -/
def toAnyOfSegs (segs : List Seg) : PVal :=
  match segs.filterMap segVal?,
      (segs.filterMap segTxt?).all (fun t => trimStr t == "") with
  | [v], true => v
  | _, _ => PVal.str (stringifySegs segs)

/-- Modelled from the spec: `FuncParser.parse_to_any`. -/
def FuncParser.parseToAny (p : FuncParser) (s : String) (raiseErrors : Bool)
    (calltime : List (String × String)) : Except String PVal :=
  match parseSegs p s raiseErrors calltime with
  | Except.error e => Except.error e
  | Except.ok segs => Except.ok (toAnyOfSegs segs)

/-- The `_test_callable` of the repository's funcparser tests: renders its
positional and keyword arguments into a `_test(...)` string. -/
def testCallable : PCallable := fun args kwargs =>
  PVal.str ("_test(" ++
    String.intercalate ", " (args ++ kwargs.map (fun kv => kv.1 ++ "=" ++ kv.2)) ++ ")")

/-- Accumulate the value of a digit list. -/
def digitsToNat : List Char → Nat → Nat
  | [], acc => acc
  | c :: cs, acc => digitsToNat cs (acc * 10 + (c.toNat - 48))

/-- Read a natural number from a digit-only string (a structurally
recursive counterpart of string-to-number conversion). -/
def strToNat? (s : String) : Option Nat :=
  if s.data ≠ [] && s.data.all Char.isDigit then some (digitsToNat s.data 0) else none

/-- The `$lit` callable restricted to the natural-number literals the claims
exercise: a digit-only argument comes back as a native number, anything else
as a string. -/
def litCallable : PCallable := fun args _ =>
  match args with
  | [a] =>
      match strToNat? a with
      | some n => PVal.num n
      | none => PVal.str a
  | _ => PVal.str ""

/-- The callable table used by the funcparser tests (the names the claims
exercise; `dummy` is deliberately absent). -/
def demoTable : CallTable := [("foo", testCallable), ("bar", testCallable), ("lit", litCallable)]

/-- A parser over the demo table with no construction-time defaults. -/
def demoParser : FuncParser := { tbl := demoTable, defaults := [] }

/-- A parser over the demo table with the construction-time default
`test=foo`, as in `test_kwargs_overrides`. -/
def kwParser : FuncParser := { tbl := demoTable, defaults := [("test", "foo")] }

/-- Characters that the scanner passes through as plain top-level text: not
a macro-call start and not an escape. -/
def topPlain (c : Char) : Bool := c != '$' && c != '\\'

/-- Decidable equality of parser results, so that concrete parses can be
checked by evaluation. -/
instance {ε α : Type} [DecidableEq ε] [DecidableEq α] : DecidableEq (Except ε α) :=
  fun a b =>
    match a, b with
    | Except.error e1, Except.error e2 =>
        if h : e1 = e2 then Decidable.isTrue (by rw [h])
        else Decidable.isFalse (by intro he; cases he; exact h rfl)
    | Except.error _, Except.ok _ => Decidable.isFalse (by intro he; cases he)
    | Except.ok _, Except.error _ => Decidable.isFalse (by intro he; cases he)
    | Except.ok a1, Except.ok a2 =>
        if h : a1 = a2 then Decidable.isTrue (by rw [h])
        else Decidable.isFalse (by intro he; cases he; exact h rfl)

theorem selectorUpdate_pure {σ : Type} (stats : List Status) (s : σ) :
    selectorUpdate (stats.map pureChild) s = (specFirstNonFailure stats, s) := by
  induction stats generalizing s with
  | nil => simp [selectorUpdate, specFirstNonFailure]
  | cons st rest ih =>
      cases st <;> simp [selectorUpdate, specFirstNonFailure, pureChild, ih]

theorem sequenceUpdate_pure {σ : Type} (stats : List Status) (s : σ) :
    sequenceUpdate (stats.map pureChild) s = (specFirstNonSuccess stats, s) := by
  induction stats generalizing s with
  | nil => simp [sequenceUpdate, specFirstNonSuccess]
  | cons st rest ih =>
      cases st <;> simp [sequenceUpdate, specFirstNonSuccess, pureChild, ih]

theorem specFirstNonFailure_eq_failure (stats : List Status) :
    specFirstNonFailure stats = Status.failure ↔ ∀ st ∈ stats, st = Status.failure := by
  induction stats with
  | nil => simp [specFirstNonFailure]
  | cons st rest ih =>
      cases st <;> simp [specFirstNonFailure, ih]

theorem specFirstNonSuccess_eq_success (stats : List Status) :
    specFirstNonSuccess stats = Status.success ↔ ∀ st ∈ stats, st = Status.success := by
  induction stats with
  | nil => simp [specFirstNonSuccess]
  | cons st rest ih =>
      cases st <;> simp [specFirstNonSuccess, ih]

/-- C2: a Selector evaluates its children left-to-right and returns the
first non-FAILURE child status, returning FAILURE only when every child
returns FAILURE, and stops evaluating after the first non-FAILURE result:
with children returning [FAILURE, SUCCESS, FAILURE] it returns SUCCESS after
evaluating exactly 2 children (the third counter stays 0).  Dually, a
Sequence returns the first non-SUCCESS child status, SUCCESS only when every
child returns SUCCESS, and with [SUCCESS, FAILURE, SUCCESS] returns FAILURE
after evaluating exactly 2 children. -/
theorem C2_selector_sequence_short_circuit :
    (∀ (σ : Type) (stats : List Status) (s : σ),
      selectorUpdate (stats.map pureChild) s = (specFirstNonFailure stats, s)) ∧
    (∀ (σ : Type) (stats : List Status) (s : σ),
      sequenceUpdate (stats.map pureChild) s = (specFirstNonSuccess stats, s)) ∧
    (∀ stats : List Status,
      (specFirstNonFailure stats = Status.failure ↔ ∀ st ∈ stats, st = Status.failure)) ∧
    (∀ stats : List Status,
      (specFirstNonSuccess stats = Status.success ↔ ∀ st ∈ stats, st = Status.success)) ∧
    selectorUpdate [countingChild 0 Status.failure, countingChild 1 Status.success,
      countingChild 2 Status.failure] [0, 0, 0] = (Status.success, [1, 1, 0]) ∧
    sequenceUpdate [countingChild 0 Status.success, countingChild 1 Status.failure,
      countingChild 2 Status.success] [0, 0, 0] = (Status.failure, [1, 1, 0]) :=
  ⟨fun _ => selectorUpdate_pure, fun _ => sequenceUpdate_pure,
    specFirstNonFailure_eq_failure, specFirstNonSuccess_eq_success,
    by decide, by decide⟩

/-- Companion evaluation for `C2_selector_sequence_short_circuit`, applying
it at concrete inputs. -/
theorem C2_selector_sequence_short_circuit_witness :
    selectorUpdate ([Status.failure, Status.success, Status.failure].map pureChild) 0 =
      (specFirstNonFailure [Status.failure, Status.success, Status.failure], 0) ∧
    (specFirstNonFailure [Status.failure, Status.failure] = Status.failure ↔
      ∀ st ∈ [Status.failure, Status.failure], st = Status.failure) :=
  ⟨C2_selector_sequence_short_circuit.1 Nat [Status.failure, Status.success, Status.failure] 0,
    C2_selector_sequence_short_circuit.2.2.1 [Status.failure, Status.failure]⟩

theorem runChild_adderFailure (h : Nat) (bb : Blackboard) :
    runChild (adderFailureLeaf h) bb =
      (Status.failure, { bb with counts := updA bb.counts h (lookupD bb.counts h 0 + 1) }) := by
  simp [runChild, adderFailureLeaf]

theorem lookup_updA_self (l : List (Nat × Nat)) (k v : Nat) :
    (updA l k v).lookup k = some v := by
  induction l with
  | nil => simp [updA, List.lookup]
  | cons p rest ih =>
      rcases p with ⟨k1, v1⟩
      by_cases hk : k1 = k
      · subst hk; simp [updA, List.lookup]
      · have hkk : (k == k1) = false := beq_eq_false_iff_ne.mpr (Ne.symm hk)
        simp [updA, hk, List.lookup, hkk, ih]

theorem lookupD_updA_self (l : List (Nat × Nat)) (k v d : Nat) :
    lookupD (updA l k v) k d = v := by
  simp [lookupD, lookup_updA_self]

theorem repeater_adderFailure (n : Nat) (h : Nat) (bb : Blackboard) :
    (repeaterUpdate n (adderFailureLeaf h) bb).1 = Status.success ∧
    lookupD (repeaterUpdate n (adderFailureLeaf h) bb).2.counts h 0 =
      lookupD bb.counts h 0 + n := by
  induction n generalizing bb with
  | zero => simp [repeaterUpdate]
  | succ m ih =>
      have hstep := runChild_adderFailure h bb
      constructor
      · simp [repeaterUpdate, hstep, (ih _).1]
      · simp only [repeaterUpdate, hstep]
        have h2 := (ih { bb with counts := updA bb.counts h (lookupD bb.counts h 0 + 1) }).2
        simp only [h2, lookupD_updA_self]
        omega

/-- C4 counterexample: a Repeater with `repeats = 3` over a child whose
update always returns FAILURE (the counting `AdderFailureLeaf`) invokes the
child exactly 3 times yet returns SUCCESS — not the final repetition's
FAILURE — exactly as `test_repeater` in the repository asserts. -/
theorem C4_repeater_final_failure_counterexample :
    (repeaterUpdate 3 (adderFailureLeaf 1) bb0).1 = Status.success ∧
    lookupD (repeaterUpdate 3 (adderFailureLeaf 1) bb0).2.counts 1 0 = 3 ∧
    (repeaterUpdate 3 (adderFailureLeaf 1) bb0).1 ≠ Status.failure := by
  refine ⟨by decide, by decide, by decide⟩

/-- C4 (amended): a Repeater with `repeats = n` invokes its single child
exactly n times within one tick, synchronously with no RUNNING yield
between repetitions, and — when every repetition returns SUCCESS or
FAILURE — the status it returns is SUCCESS once all n repetitions complete
(not the final repetition's own result); in particular with `repeats = 3`
over an always-FAILURE counting child the counter ends at exactly 3 and the
result is SUCCESS. -/
theorem C4_repeater_success_after_n_repeats :
    (∀ (n : Nat) (c : BTChild) (bb : Blackboard),
      (∀ b, (c.update b).1 = Status.success ∨ (c.update b).1 = Status.failure) →
      (repeaterUpdate n c bb).1 = Status.success) ∧
    (∀ (n h : Nat) (bb : Blackboard),
      lookupD (repeaterUpdate n (adderFailureLeaf h) bb).2.counts h 0 =
        lookupD bb.counts h 0 + n) ∧
    repeaterUpdate 3 (adderFailureLeaf 1) bb0 =
      (Status.success, { bb0 with counts := [(1, 3)] }) := by
  refine ⟨?_, fun n h bb => (repeater_adderFailure n h bb).2, by decide⟩
  intro n c bb hc
  induction n generalizing bb with
  | zero => simp [repeaterUpdate]
  | succ m ih =>
      rcases hu : c.update bb with ⟨st, bb1⟩
      have := hc bb
      rw [hu] at this
      rcases this with hst | hst <;> simp at hst <;>
        simp [repeaterUpdate, runChild, hu, hst, ih]

/-- Companion evaluation for `C4_repeater_success_after_n_repeats`,
applying it at a concrete always-FAILURE child. -/
theorem C4_repeater_success_after_n_repeats_witness :
    (repeaterUpdate 2 (failureLeaf 5) bb0).1 = Status.success :=
  C4_repeater_success_after_n_repeats.1 2 (failureLeaf 5) bb0
    (fun _ => Or.inr rfl)

/-- C5: the claim is right and the repository test is the slip: per the spec
a Failer forces FAILURE for every child whose update returns SUCCESS or
FAILURE (dually a Succeeder forces SUCCESS), passing RUNNING and ERROR
through unchanged; `test_failer` in `evennia/contrib/aisystem/tests.py`
instead asserts SUCCESS for both a SuccessLeaf and a FailureLeaf child — a
verbatim copy of `test_succeeder` whose comments still speak of an
"inverter".  The spec-modelled Failer is evaluated at the test's own inputs
in the final conjuncts. -/
theorem C5_failer_succeeder_forcing :
    (∀ (c : BTChild) (bb : Blackboard),
      ((runChild c bb).1 = Status.success ∨ (runChild c bb).1 = Status.failure) →
        failerUpdate c bb = (Status.failure, (runChild c bb).2)) ∧
    (∀ (c : BTChild) (bb : Blackboard),
      ((runChild c bb).1 = Status.success ∨ (runChild c bb).1 = Status.failure) →
        succeederUpdate c bb = (Status.success, (runChild c bb).2)) ∧
    (∀ (c : BTChild) (bb : Blackboard),
      ((runChild c bb).1 = Status.running ∨ (runChild c bb).1 = Status.error) →
        failerUpdate c bb = runChild c bb ∧ succeederUpdate c bb = runChild c bb) ∧
    failerUpdate (successLeaf 1) bb0 = (Status.failure, bb0) ∧
    failerUpdate (failureLeaf 1) bb0 = (Status.failure, bb0) ∧
    succeederUpdate (successLeaf 1) bb0 = (Status.success, bb0) ∧
    succeederUpdate (failureLeaf 1) bb0 = (Status.success, bb0) := by
  refine ⟨?_, ?_, ?_, by decide, by decide, by decide, by decide⟩ <;>
    intro c bb hst <;>
    rcases hr : runChild c bb with ⟨st, bb1⟩ <;>
    rw [hr] at hst <;> simp at hst <;>
    rcases hst with h1 | h1 <;> subst h1 <;>
    simp [failerUpdate, succeederUpdate, hr]

/-- Companion evaluation for `C5_failer_succeeder_forcing`, applying it at a
concrete SUCCESS child. -/
theorem C5_failer_succeeder_forcing_witness :
    failerUpdate (successLeaf 2) bb0 = (Status.failure, (runChild (successLeaf 2) bb0).2) :=
  C5_failer_succeeder_forcing.1 (successLeaf 2) bb0 (Or.inl rfl)

/-- C6: a Parallel node evaluates every child each tick (the instrumented
conjunct shows both counters bumped even with an ERROR sibling); when
`primary_child` is set, that child's own SUCCESS or FAILURE alone determines
the returned status regardless of the other children's counts; when unset,
the node returns SUCCESS once `req_successes` children have succeeded
(`req_successes = 2` with children [SUCCESS, SUCCESS, FAILURE] yields
SUCCESS), FAILURE once `req_failures` children have failed (and the success
threshold is unmet), ERROR if any child returns ERROR (thresholds unmet),
RUNNING if a child is RUNNING with no threshold met and no ERROR, and
otherwise the `default_success` boolean decides. -/
theorem C6_parallel_policies :
    (∀ (sts : List Status) (i : Nat) (rS rF : Option Nat) (dS : Bool),
      sts.get? i = some Status.success →
        parallelDecide (some i) rS rF dS sts = Status.success) ∧
    (∀ (sts : List Status) (i : Nat) (rS rF : Option Nat) (dS : Bool),
      sts.get? i = some Status.failure →
        parallelDecide (some i) rS rF dS sts = Status.failure) ∧
    (∀ (sts : List Status) (rS rF : Option Nat) (dS : Bool),
      thresholdMet rS (countSt sts Status.success) = true →
        parallelDecide none rS rF dS sts = Status.success) ∧
    (∀ (sts : List Status) (rS rF : Option Nat) (dS : Bool),
      thresholdMet rS (countSt sts Status.success) = false →
      thresholdMet rF (countSt sts Status.failure) = true →
        parallelDecide none rS rF dS sts = Status.failure) ∧
    (∀ (sts : List Status) (rS rF : Option Nat) (dS : Bool),
      thresholdMet rS (countSt sts Status.success) = false →
      thresholdMet rF (countSt sts Status.failure) = false →
      Status.error ∈ sts →
        parallelDecide none rS rF dS sts = Status.error) ∧
    (∀ (sts : List Status) (rS rF : Option Nat) (dS : Bool),
      thresholdMet rS (countSt sts Status.success) = false →
      thresholdMet rF (countSt sts Status.failure) = false →
      Status.error ∉ sts → Status.running ∈ sts →
        parallelDecide none rS rF dS sts = Status.running) ∧
    (∀ (sts : List Status) (rS rF : Option Nat) (dS : Bool),
      thresholdMet rS (countSt sts Status.success) = false →
      thresholdMet rF (countSt sts Status.failure) = false →
      Status.error ∉ sts → Status.running ∉ sts →
        parallelDecide none rS rF dS sts = (if dS then Status.success else Status.failure)) ∧
    parallelUpdate none none none true
      [adderSuccessLeaf 1, errorLeaf 2, adderFailureLeaf 3] bb0 =
      (Status.error, { bb0 with counts := [(1, 1), (3, 1)] }) ∧
    parallelUpdate none (some 2) (some 2) true
      [successLeaf 1, successLeaf 2, failureLeaf 3] bb0 = (Status.success, bb0) ∧
    parallelUpdate (some 2) (some 3) (some 2) true
      [successLeaf 1, successLeaf 2, failureLeaf 3] bb0 = (Status.failure, bb0) := by
  refine ⟨?_, ?_, ?_, ?_, ?_, ?_, ?_, by decide, by decide, by decide⟩
  · intro sts i rS rF dS h
    simp only [List.get?_eq_getElem?] at h
    simp [parallelDecide, h]
  · intro sts i rS rF dS h
    simp only [List.get?_eq_getElem?] at h
    simp [parallelDecide, h]
  · intro sts rS rF dS h
    simp [parallelDecide, h]
  · intro sts rS rF dS h1 h2
    simp [parallelDecide, h1, h2]
  · intro sts rS rF dS h1 h2 h3
    simp [parallelDecide, h1, h2, h3]
  · intro sts rS rF dS h1 h2 h3 h4
    simp [parallelDecide, h1, h2, h3, h4]
  · intro sts rS rF dS h1 h2 h3 h4
    simp [parallelDecide, h1, h2, h3, h4]

/-- Companion evaluation for `C6_parallel_policies`, applying it at concrete
statuses. -/
theorem C6_parallel_policies_witness :
    parallelDecide (some 2) (some 3) (some 2) true
      [Status.success, Status.success, Status.failure] = Status.failure ∧
    parallelDecide none (some 2) (some 2) true
      [Status.success, Status.success, Status.failure] = Status.success :=
  ⟨C6_parallel_policies.2.1 [Status.success, Status.success, Status.failure]
      2 (some 3) (some 2) true rfl,
    C6_parallel_policies.2.2.1 [Status.success, Status.success, Status.failure]
      (some 2) (some 2) true rfl⟩

/-- C3: when a child of a MemSelector (dually MemSequence) returns RUNNING
on a tick, the composite records that child's absolute index in the
blackboard, and a pass that starts from a remembered index walks only the
children from that index on (preceding siblings are not re-evaluated); in
the concrete two-tick scenario from the tests, a MemSelector over
[AdderFailureLeaf, RunToggleLeaf] returns RUNNING then SUCCESS and the first
child's counter after both ticks is exactly 1. -/
theorem C3_mem_composites_resume :
    (∀ (h : Nat) (pre post : List BTChild) (bb : Blackboard),
      lookupD bb.mem h 0 = pre.length →
        memSelectorUpdate h (pre ++ post) bb = memSelAux h post pre.length bb) ∧
    (∀ (h : Nat) (pre post : List BTChild) (bb : Blackboard),
      lookupD bb.mem h 0 = pre.length →
        memSequenceUpdate h (pre ++ post) bb = memSeqAux h post pre.length bb) ∧
    (∀ (h : Nat) (c : BTChild) (rest : List BTChild) (i : Nat) (bb bb1 : Blackboard),
      runChild c bb = (Status.running, bb1) →
        memSelAux h (c :: rest) i bb = (Status.running, { bb1 with mem := updA bb1.mem h i })) ∧
    (∀ (h : Nat) (c : BTChild) (rest : List BTChild) (i : Nat) (bb bb1 : Blackboard),
      runChild c bb = (Status.running, bb1) →
        memSeqAux h (c :: rest) i bb = (Status.running, { bb1 with mem := updA bb1.mem h i })) ∧
    (tick (memSelectorNode 0 [adderFailureLeaf 1, runToggleLeaf 2]) bb0).1 = Status.running ∧
    lookupD (tick (memSelectorNode 0 [adderFailureLeaf 1, runToggleLeaf 2]) bb0).2.mem 0 0 = 1 ∧
    (tick (memSelectorNode 0 [adderFailureLeaf 1, runToggleLeaf 2])
      (tick (memSelectorNode 0 [adderFailureLeaf 1, runToggleLeaf 2]) bb0).2).1 =
      Status.success ∧
    lookupD (tick (memSelectorNode 0 [adderFailureLeaf 1, runToggleLeaf 2])
      (tick (memSelectorNode 0 [adderFailureLeaf 1, runToggleLeaf 2]) bb0).2).2.counts 1 0 = 1 ∧
    (tick (memSequenceNode 0 [adderSuccessLeaf 1, runToggleLeaf 2]) bb0).1 = Status.running ∧
    (tick (memSequenceNode 0 [adderSuccessLeaf 1, runToggleLeaf 2])
      (tick (memSequenceNode 0 [adderSuccessLeaf 1, runToggleLeaf 2]) bb0).2).1 =
      Status.success ∧
    lookupD (tick (memSequenceNode 0 [adderSuccessLeaf 1, runToggleLeaf 2])
      (tick (memSequenceNode 0 [adderSuccessLeaf 1, runToggleLeaf 2]) bb0).2).2.counts 1 0 = 1 := by
  refine ⟨?_, ?_, ?_, ?_, by decide, by decide, by decide, by decide, by decide,
    by decide, by decide⟩
  · intro h pre post bb hmem
    simp [memSelectorUpdate, hmem]
  · intro h pre post bb hmem
    simp [memSequenceUpdate, hmem]
  · intro h c rest i bb bb1 hrun
    simp [memSelAux, hrun]
  · intro h c rest i bb bb1 hrun
    simp [memSeqAux, hrun]

/-- Companion evaluation for `C3_mem_composites_resume`, applying it at a
concrete remembered index. -/
theorem C3_mem_composites_resume_witness :
    memSelectorUpdate 0 ([adderFailureLeaf 1] ++ [runToggleLeaf 2])
      { bb0 with mem := [(0, 1)] } =
      memSelAux 0 [runToggleLeaf 2] 1 { bb0 with mem := [(0, 1)] } :=
  C3_mem_composites_resume.1 0 [adderFailureLeaf 1] [runToggleLeaf 2]
    { bb0 with mem := [(0, 1)] } rfl

theorem lookup_append_of_some {l1 : List (Nat × TNode)} {k : Nat} {v : TNode}
    (l2 : List (Nat × TNode)) (h : l1.lookup k = some v) :
    (l1 ++ l2).lookup k = some v := by
  induction l1 with
  | nil => simp [List.lookup] at h
  | cons p rest ih =>
      rcases p with ⟨k1, v1⟩
      by_cases hk : k = k1
      · subst hk
        simp only [List.lookup, beq_self_eq_true, List.cons_append] at h ⊢
        exact h
      · have hkk : (k == k1) = false := beq_eq_false_iff_ne.mpr hk
        simp only [List.lookup, hkk, List.cons_append] at h ⊢
        exact ih h

theorem lookup_append_of_none {l1 : List (Nat × TNode)} {k : Nat}
    (l2 : List (Nat × TNode)) (h : l1.lookup k = none) :
    (l1 ++ l2).lookup k = l2.lookup k := by
  induction l1 with
  | nil => simp
  | cons p rest ih =>
      rcases p with ⟨k1, v1⟩
      by_cases hk : k = k1
      · subst hk
        simp only [List.lookup, beq_self_eq_true] at h
        cases h
      · have hkk : (k == k1) = false := beq_eq_false_iff_ne.mpr hk
        simp only [List.lookup, hkk, List.cons_append] at h ⊢
        exact ih h

theorem lookup_updNodes_self (l : List (Nat × TNode)) (h : Nat) (n : TNode) :
    (updNodes l h n).lookup h = some n := by
  induction l with
  | nil => simp [updNodes, List.lookup]
  | cons p rest ih =>
      rcases p with ⟨k1, v1⟩
      by_cases hk : k1 = h
      · subst hk; simp [updNodes, List.lookup]
      · have hkk : (h == k1) = false := beq_eq_false_iff_ne.mpr (Ne.symm hk)
        simp only [updNodes, hk, if_false, List.lookup, hkk]
        exact ih

theorem lookup_updNodes_ne (l : List (Nat × TNode)) {k h : Nat} (n : TNode)
    (hne : k ≠ h) : (updNodes l h n).lookup k = l.lookup k := by
  induction l with
  | nil => simp [updNodes, List.lookup, beq_eq_false_iff_ne.mpr hne]
  | cons p rest ih =>
      rcases p with ⟨k1, v1⟩
      by_cases hk : k1 = h
      · subst hk
        simp only [updNodes, if_true, List.lookup, beq_eq_false_iff_ne.mpr hne, if_pos rfl]
      · simp only [updNodes, hk, if_false, List.lookup]
        cases hkk : k == k1
        · exact ih
        · rfl

theorem mem_keys_of_lookup {l : List (Nat × TNode)} {k : Nat} {v : TNode}
    (h : l.lookup k = some v) : k ∈ l.map Prod.fst := by
  induction l with
  | nil => simp [List.lookup] at h
  | cons p rest ih =>
      rcases p with ⟨k1, v1⟩
      by_cases hk : k = k1
      · subst hk; simp
      · have hkk : (k == k1) = false := beq_eq_false_iff_ne.mpr hk
        simp only [List.lookup, hkk] at h
        simp only [List.map_cons, List.mem_cons]
        exact Or.inr (ih h)

theorem lookup_eq_none_of_not_mem {l : List (Nat × TNode)} {k : Nat}
    (h : k ∉ l.map Prod.fst) : l.lookup k = none := by
  induction l with
  | nil => simp [List.lookup]
  | cons p rest ih =>
      rcases p with ⟨k1, v1⟩
      simp only [List.map_cons, List.mem_cons, not_or] at h
      have hkk : (k == k1) = false := beq_eq_false_iff_ne.mpr h.1
      simp only [List.lookup, hkk]
      exact ih h.2

theorem le_foldr_max {xs : List Nat} {x : Nat} (h : x ∈ xs) : x ≤ xs.foldr max 0 := by
  induction xs with
  | nil => simp at h
  | cons y rest ih =>
      simp only [List.foldr_cons]
      rcases List.mem_cons.mp h with h1 | h1
      · subst h1; exact le_max_left _ _
      · exact le_trans (ih h1) (le_max_right _ _)

theorem find?_freshHash (t : BTree) : t.find? (freshHash t) = none := by
  apply lookup_eq_none_of_not_mem
  intro hmem
  have hle : freshHash t ≤ (t.nodes.map Prod.fst).foldr max 0 := le_foldr_max hmem
  simp only [freshHash, freshFrom, BTree.keys] at hle
  omega

/-- C10: constructing a node with a tree and a parent argument by itself
registers the new node in the tree's registry under a freshly assigned hash
(one that was not in the registry before) and attaches it to the given
parent — inserted into a Composite parent's children at the given position
(appended when the position is omitted), or filling a Root/Decorator
parent's single child slot — with the node's parent back-reference set, and
every other registry entry untouched, all without any call to `add()`. -/
theorem C10_constructor_registers :
    ∀ (t : BTree) (ph : Nat) (kind : NKind) (nm : String) (pos : Option Nat) (p : TNode),
      t.find? ph = some p →
      t.find? (mkNode kind nm t ph pos).2 = none ∧
      (mkNode kind nm t ph pos).1.find? (mkNode kind nm t ph pos).2 =
        some { name := nm, kind := kind, parent := some ph, children := [] } ∧
      (p.kind = NKind.composite →
        (mkNode kind nm t ph pos).1.find? ph =
          some { p with children := insertChild p.children (mkNode kind nm t ph pos).2 pos }) ∧
      (p.kind ≠ NKind.composite →
        (mkNode kind nm t ph pos).1.find? ph =
          some { p with children := [(mkNode kind nm t ph pos).2] }) ∧
      (∀ k, k ≠ (mkNode kind nm t ph pos).2 → k ≠ ph →
        (mkNode kind nm t ph pos).1.find? k = t.find? k) := by
  intro t ph kind nm pos p hp
  have hp' : List.lookup ph t.nodes = some p := hp
  have hfresh : t.find? (freshHash t) = none := find?_freshHash t
  have hfresh' : List.lookup (freshHash t) t.nodes = none := hfresh
  have hne : ph ≠ freshHash t := by
    intro he
    rw [he, hfresh] at hp
    cases hp
  have hsnd : (mkNode kind nm t ph pos).2 = freshHash t := by
    simp [mkNode, BTree.find?, hp']
  refine ⟨by rw [hsnd]; exact hfresh, ?_, ?_, ?_, ?_⟩
  · rw [hsnd]
    simp only [mkNode, BTree.find?, hp', setNode]
    rw [lookup_updNodes_ne _ _ (Ne.symm hne)]
    rw [lookup_append_of_none _ hfresh']
    simp [List.lookup]
  · intro hk
    rw [hsnd]
    rcases p with ⟨pn, pk, pp, pc⟩
    cases pk <;>
      simp_all [mkNode, BTree.find?, setNode, lookup_updNodes_self]
  · intro hk
    rw [hsnd]
    rcases p with ⟨pn, pk, pp, pc⟩
    cases pk <;>
      simp_all [mkNode, BTree.find?, setNode, lookup_updNodes_self]
  · intro k hk1 hk2
    rw [hsnd] at hk1
    simp only [mkNode, BTree.find?, hp', setNode]
    rw [lookup_updNodes_ne _ _ hk2]
    rcases hcase : List.lookup k t.nodes with _ | v
    · rw [lookup_append_of_none _ hcase]
      have hkk : (k == freshHash t) = false := beq_eq_false_iff_ne.mpr hk1
      simp [List.lookup, hkk, hcase]
    · rw [lookup_append_of_some _ hcase]

/-- Companion evaluation for `C10_constructor_registers`, applying it to
adding a leaf under the root of the one-node tree. -/
theorem C10_constructor_registers_witness :
    emptyTree.find? (mkNode NKind.leaf "leaf" emptyTree 1 none).2 = none ∧
    (mkNode NKind.leaf "leaf" emptyTree 1 none).1.find?
        (mkNode NKind.leaf "leaf" emptyTree 1 none).2 =
      some { name := "leaf", kind := NKind.leaf, parent := some 1, children := [] } :=
  ⟨(C10_constructor_registers emptyTree 1 NKind.leaf "leaf" none
      { name := "root", kind := NKind.root, parent := none, children := [] } rfl).1,
    (C10_constructor_registers emptyTree 1 NKind.leaf "leaf" none
      { name := "root", kind := NKind.root, parent := none, children := [] } rfl).2.1⟩

theorem addOp_all_or_nothing (self : BTree) (nodeA destA : Arg) (pos : Option Nat)
    (copying : Bool) (src : Option BTree) :
    (addOp self nodeA destA pos copying src).1.isSome →
      (addOp self nodeA destA pos copying src).2.1 = self ∧
      (addOp self nodeA destA pos copying src).2.2 = src := by
  cases nodeA <;> cases destA <;> simp only [addOp] <;> (repeat' split) <;> simp

theorem removeOp_all_or_nothing (self : BTree) (nodeA : Arg) :
    (removeOp self nodeA).1.isSome → (removeOp self nodeA).2 = self := by
  cases nodeA <;> simp only [removeOp] <;> (repeat' split) <;> simp

theorem shiftOp_all_or_nothing (self : BTree) (nodeA : Arg) (pos : Option Nat) :
    (shiftOp self nodeA pos).1.isSome → (shiftOp self nodeA pos).2 = self := by
  cases nodeA <;> simp only [shiftOp] <;> (repeat' split) <;> simp

theorem swapOp_all_or_nothing (self : BTree) (aA bA : Arg) (src : Option BTree) :
    (swapOp self aA bA src).1.isSome →
      (swapOp self aA bA src).2.1 = self ∧ (swapOp self aA bA src).2.2 = src := by
  cases aA <;> cases bA <;> simp only [swapOp] <;> (repeat' split) <;> simp

theorem interposeOp_all_or_nothing (self : BTree) (nodeA targetA : Arg)
    (pos : Option Nat) (copying : Bool) (src : Option BTree) :
    (interposeOp self nodeA targetA pos copying src).1.isSome →
      (interposeOp self nodeA targetA pos copying src).2.1 = self ∧
      (interposeOp self nodeA targetA pos copying src).2.2 = src := by
  cases nodeA <;> cases targetA <;> simp only [interposeOp] <;> (repeat' split) <;> simp

/-- C1: every failing invocation of the five tree-mutation operations
returns a descriptive error string as a value (the operations are total
functions — nothing is thrown) and leaves the tree(s) exactly as given: the
first five conjuncts are the all-or-nothing guarantee for every possible
error return of add, remove, shift, swap and interpose, and the remaining
conjuncts show that each failure condition named by the claim — a non-Node
argument, a Root node as source or target, a `source_tree` that does not
contain the node, a Leaf destination, an occupied Decorator destination, a
non-Composite shift parent, an unregistered remove argument, and
same-node/Root interpose arguments — indeed produces an error value. -/
theorem C1_tree_mutation_failures_all_or_nothing :
    (∀ (self : BTree) (nodeA destA : Arg) (pos : Option Nat) (copying : Bool)
        (src : Option BTree),
      (addOp self nodeA destA pos copying src).1.isSome →
        (addOp self nodeA destA pos copying src).2.1 = self ∧
        (addOp self nodeA destA pos copying src).2.2 = src) ∧
    (∀ (self : BTree) (nodeA : Arg),
      (removeOp self nodeA).1.isSome → (removeOp self nodeA).2 = self) ∧
    (∀ (self : BTree) (nodeA : Arg) (pos : Option Nat),
      (shiftOp self nodeA pos).1.isSome → (shiftOp self nodeA pos).2 = self) ∧
    (∀ (self : BTree) (aA bA : Arg) (src : Option BTree),
      (swapOp self aA bA src).1.isSome →
        (swapOp self aA bA src).2.1 = self ∧ (swapOp self aA bA src).2.2 = src) ∧
    (∀ (self : BTree) (nodeA targetA : Arg) (pos : Option Nat) (copying : Bool)
        (src : Option BTree),
      (interposeOp self nodeA targetA pos copying src).1.isSome →
        (interposeOp self nodeA targetA pos copying src).2.1 = self ∧
        (interposeOp self nodeA targetA pos copying src).2.2 = src) ∧
    (∀ (self : BTree) (destA : Arg) (pos : Option Nat) (copying : Bool)
        (src : Option BTree),
      (addOp self Arg.notNode destA pos copying src).1.isSome) ∧
    (∀ (self : BTree) (hn hd : Nat) (kd : NKind) (pos : Option Nat) (copying : Bool)
        (src : Option BTree),
      (addOp self (Arg.node hn NKind.root) (Arg.node hd kd) pos copying src).1.isSome) ∧
    (∀ (self srcT : BTree) (hn : Nat) (kn : NKind) (destA : Arg) (pos : Option Nat)
        (copying : Bool),
      srcT.find? hn = none →
        (addOp self (Arg.node hn kn) destA pos copying (some srcT)).1.isSome) ∧
    (∀ (self : BTree) (hn : Nat) (kn : NKind) (hd : Nat) (pos : Option Nat)
        (copying : Bool) (src : Option BTree),
      (addOp self (Arg.node hn kn) (Arg.node hd NKind.leaf) pos copying src).1.isSome) ∧
    (∀ (self : BTree) (hn : Nat) (kn : NKind) (hd : Nat) (pos : Option Nat)
        (copying : Bool) (src : Option BTree) (d : TNode),
      self.find? hd = some d → d.children ≠ [] →
        (addOp self (Arg.node hn kn) (Arg.node hd NKind.decorator) pos copying src).1.isSome) ∧
    (∀ (self : BTree) (ha hb : Nat) (kb : NKind) (src : Option BTree),
      (swapOp self (Arg.node ha NKind.root) (Arg.node hb kb) src).1.isSome) ∧
    (∀ (self : BTree) (ha : Nat) (ka : NKind) (hb : Nat) (src : Option BTree),
      (swapOp self (Arg.node ha ka) (Arg.node hb NKind.root) src).1.isSome) ∧
    (∀ (self : BTree) (pos : Option Nat), (shiftOp self Arg.notNode pos).1.isSome) ∧
    (∀ (self : BTree) (h : Nat) (k : NKind) (pos : Option Nat) (n : TNode) (ph : Nat)
        (pn : TNode),
      self.find? h = some n → n.parent = some ph → self.find? ph = some pn →
      pn.kind ≠ NKind.composite → (shiftOp self (Arg.node h k) pos).1.isSome) ∧
    (∀ (self : BTree) (h : Nat) (k : NKind),
      self.find? h = none → (removeOp self (Arg.node h k)).1.isSome) ∧
    (∀ (self : BTree) (h : Nat) (kn kt : NKind) (pos : Option Nat) (copying : Bool),
      (interposeOp self (Arg.node h kn) (Arg.node h kt) pos copying none).1.isSome) ∧
    (∀ (self : BTree) (hn : Nat) (kn : NKind) (ht : Nat) (pos : Option Nat)
        (copying : Bool) (src : Option BTree),
      (interposeOp self (Arg.node hn kn) (Arg.node ht NKind.root) pos copying src).1.isSome) ∧
    (∀ (self : BTree) (hn ht : Nat) (kt : NKind) (pos : Option Nat) (copying : Bool)
        (src : Option BTree),
      (interposeOp self (Arg.node hn NKind.root) (Arg.node ht kt) pos copying src).1.isSome) := by
  refine ⟨addOp_all_or_nothing, removeOp_all_or_nothing, shiftOp_all_or_nothing,
    swapOp_all_or_nothing, interposeOp_all_or_nothing, ?_, ?_, ?_, ?_, ?_, ?_, ?_, ?_,
    ?_, ?_, ?_, ?_, ?_⟩
  · intro self destA pos copying src
    cases destA <;> simp [addOp]
  · intro self hn hd kd pos copying src
    simp [addOp]
  · intro self srcT hn kn destA pos copying hfind
    cases destA <;> simp only [addOp] <;> (repeat' split) <;> simp_all
  · intro self hn kn hd pos copying src
    simp only [addOp] <;> (repeat' split) <;> simp_all
  · intro self hn kn hd pos copying src d hfind hch
    simp only [addOp] <;> (repeat' split) <;> simp_all [List.isEmpty_iff]
  · intro self ha hb kb src
    simp [swapOp]
  · intro self ha ka hb src
    simp only [swapOp] <;> (repeat' split) <;> simp_all
  · intro self pos
    simp [shiftOp]
  · intro self h k pos n ph pn hfind hpar hpfind hkind
    simp only [shiftOp] <;> (repeat' split) <;> simp_all
  · intro self h k hfind
    simp only [removeOp] <;> (repeat' split) <;> simp_all
  · intro self h kn kt pos copying
    simp only [interposeOp] <;> (repeat' split) <;> simp_all
  · intro self hn kn ht pos copying src
    simp only [interposeOp] <;> (repeat' split) <;> simp_all
  · intro self hn ht kt pos copying src
    simp [interposeOp]

/-- Companion evaluation for `C1_tree_mutation_failures_all_or_nothing`,
applying its conjuncts at concrete failing calls: adding with a non-node
argument, and removing an unregistered node, each leave the one-node tree
untouched. -/
theorem C1_tree_mutation_failures_all_or_nothing_witness :
    (addOp emptyTree Arg.notNode (Arg.node 1 NKind.root) none true none).2.1 = emptyTree ∧
    (removeOp emptyTree (Arg.node 99 NKind.leaf)).1.isSome ∧
    (removeOp emptyTree (Arg.node 99 NKind.leaf)).2 = emptyTree :=
  ⟨(C1_tree_mutation_failures_all_or_nothing.1 emptyTree Arg.notNode
      (Arg.node 1 NKind.root) none true none (by decide)).1,
    C1_tree_mutation_failures_all_or_nothing.2.2.2.2.2.2.2.2.2.2.2.2.2.2.1
      emptyTree 99 NKind.leaf (by decide),
    C1_tree_mutation_failures_all_or_nothing.2.1 emptyTree
      (Arg.node 99 NKind.leaf) (by decide)⟩

theorem lookup_updK_self (l : List (String × String)) (k v : String) :
    (updK l k v).lookup k = some v := by
  induction l with
  | nil => simp [updK, List.lookup]
  | cons p rest ih =>
      rcases p with ⟨k1, v1⟩
      by_cases hk : k1 = k
      · subst hk; simp [updK, List.lookup]
      · have hkk : (k == k1) = false := beq_eq_false_iff_ne.mpr (Ne.symm hk)
        simp only [updK, hk, if_false, List.lookup, hkk]
        exact ih

theorem lookup_updK_ne (l : List (String × String)) {k1 : String} (k v : String)
    (h : k1 ≠ k) : (updK l k v).lookup k1 = l.lookup k1 := by
  induction l with
  | nil => simp [updK, List.lookup, beq_eq_false_iff_ne.mpr h]
  | cons p rest ih =>
      rcases p with ⟨k2, v2⟩
      by_cases hk : k2 = k
      · subst hk
        simp only [updK, if_true, List.lookup, beq_eq_false_iff_ne.mpr h, if_pos rfl]
      · simp only [updK, hk, if_false, List.lookup]
        cases hkk : k1 == k2
        · exact ih
        · rfl

theorem lookupS_eq_none_of_not_mem {l : List (String × String)} {k : String}
    (h : k ∉ l.map Prod.fst) : l.lookup k = none := by
  induction l with
  | nil => simp [List.lookup]
  | cons p rest ih =>
      rcases p with ⟨k1, v1⟩
      simp only [List.map_cons, List.mem_cons, not_or] at h
      have hkk : (k == k1) = false := beq_eq_false_iff_ne.mpr h.1
      simp only [List.lookup, hkk]
      exact ih h.2

theorem mergeK_cons (base : List (String × String)) (kv : String × String)
    (rest : List (String × String)) :
    mergeK base (kv :: rest) = mergeK (updK base kv.1 kv.2) rest := rfl

theorem mergeK_lookup_none (base upd : List (String × String)) (k : String)
    (h : upd.lookup k = none) : (mergeK base upd).lookup k = base.lookup k := by
  induction upd generalizing base with
  | nil => rfl
  | cons kv rest ih =>
      rcases kv with ⟨k1, v1⟩
      by_cases hk : k = k1
      · subst hk
        simp only [List.lookup, beq_self_eq_true] at h
        cases h
      · have hkk : (k == k1) = false := beq_eq_false_iff_ne.mpr hk
        simp only [List.lookup, hkk] at h
        rw [mergeK_cons, ih _ h]
        exact lookup_updK_ne _ _ _ hk

theorem mergeK_lookup_some (base : List (String × String))
    {upd : List (String × String)} {k v : String}
    (hnd : (upd.map Prod.fst).Nodup) (h : upd.lookup k = some v) :
    (mergeK base upd).lookup k = some v := by
  induction upd generalizing base with
  | nil => simp [List.lookup] at h
  | cons kv rest ih =>
      rcases kv with ⟨k1, v1⟩
      simp only [List.map_cons, List.nodup_cons] at hnd
      by_cases hk : k = k1
      · subst hk
        simp only [List.lookup, beq_self_eq_true] at h
        rw [mergeK_cons,
          mergeK_lookup_none _ _ _ (lookupS_eq_none_of_not_mem hnd.1),
          lookup_updK_self]
        exact h
      · have hkk : (k == k1) = false := beq_eq_false_iff_ne.mpr hk
        simp only [List.lookup, hkk] at h
        rw [mergeK_cons]
        exact ih _ hnd.2 h

/-- C7: macro-call keyword arguments reach the invoked callable with the
promised precedence.  The callable is invoked with
`mergeK (mergeK defaults instring) calltime` (see `execCall`), and for that
merge: a key bound at `parse()`-call time wins over both the in-string
binding and the construction default; a key bound in the call expression
but not at call time wins over the construction default; and a construction
default not overridden by either shines through.  The final conjuncts run
the four scenarios of `test_kwargs_overrides` end to end through `parse`. -/
theorem C7_kwargs_precedence :
    (∀ (ds ks cs : List (String × String)) (k v : String),
      (cs.map Prod.fst).Nodup → cs.lookup k = some v →
        (mergeK (mergeK ds ks) cs).lookup k = some v) ∧
    (∀ (ds ks cs : List (String × String)) (k v : String),
      (ks.map Prod.fst).Nodup → cs.lookup k = none → ks.lookup k = some v →
        (mergeK (mergeK ds ks) cs).lookup k = some v) ∧
    (∀ (ds ks cs : List (String × String)) (k : String),
      cs.lookup k = none → ks.lookup k = none →
        (mergeK (mergeK ds ks) cs).lookup k = ds.lookup k) ∧
    kwParser.parse "This is a $foo() string" false [] =
      Except.ok "This is a _test(test=foo) string" ∧
    kwParser.parse "This is a $foo(test=bar,foo=moo) string" false [] =
      Except.ok "This is a _test(test=bar, foo=moo) string" ∧
    kwParser.parse "This is a $foo(test=bar,foo=moo) string" false
        [("test", "override"), ("foo", "bar")] =
      Except.ok "This is a _test(test=override, foo=bar) string" ∧
    kwParser.parse "This is a $foo(foo=moo) string" false [("foo", "bar")] =
      Except.ok "This is a _test(test=foo, foo=bar) string" := by
  refine ⟨?_, ?_, ?_, by decide, by decide, by decide, by decide⟩
  · intro ds ks cs k v hnd h
    exact mergeK_lookup_some _ hnd h
  · intro ds ks cs k v hnd hcs hks
    rw [mergeK_lookup_none _ _ _ hcs]
    exact mergeK_lookup_some _ hnd hks
  · intro ds ks cs k hcs hks
    rw [mergeK_lookup_none _ _ _ hcs, mergeK_lookup_none _ _ _ hks]

/-- Companion evaluation for `C7_kwargs_precedence`, applying it at the
concrete kwargs of `test_kwargs_overrides`. -/
theorem C7_kwargs_precedence_witness :
    (mergeK (mergeK [("test", "foo")] [("test", "bar"), ("foo", "moo")])
      [("test", "override"), ("foo", "bar")]).lookup "test" = some "override" :=
  C7_kwargs_precedence.1 [("test", "foo")] [("test", "bar"), ("foo", "moo")]
    [("test", "override"), ("foo", "bar")] "test" "override" (by decide) (by decide)

theorem scanChars_append (tbl : CallTable) (re : Bool)
    (ds ct : List (String × String)) (l1 l2 : List Char) (st : PState) :
    scanChars tbl re ds ct (l1 ++ l2) st =
      match scanChars tbl re ds ct l1 st with
      | Except.error e => Except.error e
      | Except.ok st1 => scanChars tbl re ds ct l2 st1 := by
  induction l1 generalizing st with
  | nil => simp [scanChars]
  | cons c cs ih =>
      simp only [List.cons_append, scanChars]
      cases stepChar tbl re ds ct st c with
      | error e => rfl
      | ok st1 => exact ih st1

theorem scanChars_plain_run (tbl : CallTable) (re : Bool)
    (ds ct : List (String × String)) (cs : List Char) (out : List Seg) (t : String)
    (hall : cs.all topPlain = true) :
    scanChars tbl re ds ct cs
        { out := out, curText := t, stack := [], mode := SMode.plain } =
      Except.ok
        { out := out, curText := t ++ String.mk cs, stack := [], mode := SMode.plain } := by
  induction cs generalizing t with
  | nil => simp [scanChars, String.append_empty]
  | cons c cs ih =>
      simp only [List.all_cons, Bool.and_eq_true] at hall
      have hc : c ≠ '$' ∧ c ≠ '\\' := by
        have := hall.1
        simp only [topPlain, Bool.and_eq_true, bne_iff_ne] at this
        exact this
      have hstep : stepChar tbl re ds ct
          { out := out, curText := t, stack := [], mode := SMode.plain } c =
          Except.ok
            { out := out, curText := t ++ String.singleton c, stack := [],
              mode := SMode.plain } := by
        simp [stepChar, feedPlain, pushText, hc.1, hc.2]
      have hcons : String.singleton c ++ String.mk cs = String.mk (c :: cs) := rfl
      simp only [scanChars, hstep]
      rw [ih (t ++ String.singleton c) hall.2, String.append_assoc, hcons]

theorem parseToAny_plain (s : String) (hall : s.data.all topPlain = true) :
    demoParser.parseToAny s false [] = Except.ok (PVal.str s) := by
  have hscan := scanChars_plain_run demoTable false [] [] s.data [] "" hall
  have hinit : pInit = { out := [], curText := "", stack := [], mode := SMode.plain } := rfl
  have hs : ("" ++ String.mk s.data) = s := by
    rw [String.empty_append]
  simp only [FuncParser.parseToAny, parseSegs, demoParser, hinit, hscan, hs]
  by_cases hemp : s = ""
  · subst hemp; rfl
  · have hse : (s ++ "") = s := String.append_empty s
    simp [finishScan, toAnyOfSegs, stringifySegs, segVal?, segTxt?, String.join,
      hse, hemp, String.empty_append]

theorem parseToAny_lit_with_suffix (t : String)
    (hall : t.data.all topPlain = true) (hts : trimStr t ≠ "") :
    demoParser.parseToAny ("$lit(123)" ++ t) false [] =
      Except.ok (PVal.str ("123" ++ t)) := by
  have hmid : scanChars demoTable false [] [] "$lit(123)".data pInit =
      Except.ok { out := [Seg.val (PVal.num 123)], curText := "", stack := [],
                  mode := SMode.plain } := by decide
  have happ := scanChars_append demoTable false [] [] "$lit(123)".data t.data pInit
  have hrun := scanChars_plain_run demoTable false [] [] t.data
    [Seg.val (PVal.num 123)] "" hall
  have hemp : t ≠ "" := by
    intro he
    subst he
    exact hts rfl
  have hs : ("" ++ String.mk t.data) = t := by
    rw [String.empty_append]
  have hdata : ("$lit(123)" ++ t).data = "$lit(123)".data ++ t.data :=
    String.data_append _ _
  have h123 : pvalToString (PVal.num 123) = "123" := by decide
  have htrim : (trimStr t == "") = false := beq_eq_false_iff_ne.mpr hts
  simp only [FuncParser.parseToAny, parseSegs, demoParser, hdata, happ, hmid, hrun, hs]
  have hse : (t ++ "") = t := String.append_empty t
  simp [finishScan, toAnyOfSegs, stringifySegs, segVal?, segTxt?, String.join,
    hse, hemp, htrim, h123, String.empty_append]

/-- C8: `parse_to_any` returns the matched callable's native return value,
unconverted to string, exactly when the entire trimmed input is one
top-level call expression, and any other input shape yields a string:
`$lit(123)` (with or without surrounding whitespace) comes back as the
native number 123 while `parse` stringifies it to "123"; a call followed by
any non-whitespace text (the `$lit(123)` ++ t family, "123aa" in
particular) yields a string; and plain text without any call is returned as
the same string. -/
theorem C8_parse_to_any_shapes :
    demoParser.parseToAny "$lit(123)" false [] = Except.ok (PVal.num 123) ∧
    demoParser.parseToAny " $lit(123) " false [] = Except.ok (PVal.num 123) ∧
    demoParser.parseToAny "$lit(123)aa" false [] = Except.ok (PVal.str "123aa") ∧
    demoParser.parse "$lit(123)" false [] = Except.ok "123" ∧
    (∀ s : String, s.data.all topPlain = true →
      demoParser.parseToAny s false [] = Except.ok (PVal.str s)) ∧
    (∀ t : String, t.data.all topPlain = true → trimStr t ≠ "" →
      demoParser.parseToAny ("$lit(123)" ++ t) false [] =
        Except.ok (PVal.str ("123" ++ t))) :=
  ⟨by decide, by decide, by decide, by decide, parseToAny_plain,
    parseToAny_lit_with_suffix⟩

/-- Companion evaluation for `C8_parse_to_any_shapes`, applying its general
clauses at the inputs of `test_parse_lit`. -/
theorem C8_parse_to_any_shapes_witness :
    demoParser.parseToAny "test" false [] = Except.ok (PVal.str "test") ∧
    demoParser.parseToAny ("$lit(123)" ++ "aa") false [] =
      Except.ok (PVal.str ("123" ++ "aa")) :=
  ⟨C8_parse_to_any_shapes.2.2.2.2.1 "test" (by decide),
    C8_parse_to_any_shapes.2.2.2.2.2 "aa" (by decide) (by decide)⟩

theorem scanChars_name_run (tbl : CallTable) (re : Bool)
    (ds ct : List (String × String)) (cs : List Char) (out : List Seg) (t : String)
    (stk : List OpenCall) (acc : String) (hall : cs.all isNameChar = true) :
    scanChars tbl re ds ct cs
        { out := out, curText := t, stack := stk, mode := SMode.name acc } =
      Except.ok
        { out := out, curText := t, stack := stk,
          mode := SMode.name (acc ++ String.mk cs) } := by
  induction cs generalizing acc with
  | nil => simp [scanChars, String.append_empty]
  | cons c cs ih =>
      simp only [List.all_cons, Bool.and_eq_true] at hall
      have hstep : stepChar tbl re ds ct
          { out := out, curText := t, stack := stk, mode := SMode.name acc } c =
          Except.ok
            { out := out, curText := t, stack := stk,
              mode := SMode.name (acc ++ String.singleton c) } := by
        simp [stepChar, hall.1]
      have hcons : String.singleton c ++ String.mk cs = String.mk (c :: cs) := rfl
      simp only [scanChars, hstep]
      rw [ih _ hall.2, String.append_assoc, hcons]

theorem parse_dangling_name (nm : String) (re : Bool)
    (hne : nm ≠ "") (hall : nm.data.all isNameChar = true) :
    demoParser.parse ("$" ++ nm ++ "(") re [] = Except.ok ("$" ++ nm ++ "(") := by
  have hdata : ("$" ++ nm ++ "(").data = '$' :: (nm.data ++ ['(']) := by
    rw [String.data_append, String.data_append]
    simp
  have hstep0 : stepChar demoTable re [] [] pInit '$' =
      Except.ok { out := [], curText := "", stack := [], mode := SMode.name "" } := by
    simp [stepChar, feedPlain, pInit]
  have hname := scanChars_name_run demoTable re [] [] nm.data [] "" [] "" hall
  have hmk : ("" ++ String.mk nm.data) = nm := by rw [String.empty_append]
  rw [hmk] at hname
  have hnc : isNameChar '(' = false := by decide
  have hpush : stepChar demoTable re [] []
      { out := [], curText := "", stack := [], mode := SMode.name nm } '(' =
      Except.ok
        { out := [], curText := "",
          stack := [{ name := nm, raw := "$" ++ nm ++ "(", doneArgs := [],
                      doneKwargs := [], curKey := none, buf := "", quoted := false,
                      quote := none, depth := 0 }],
          mode := SMode.plain } := by
    simp [stepChar, hnc, hne]
  simp only [FuncParser.parse, parseSegs, demoParser, hdata, scanChars, hstep0]
  simp only [List.append_eq, List.nil_append]
  rw [scanChars_append]
  rw [hname]
  simp only [scanChars, hpush]
  simp [finishScan, stringifySegs, String.join, String.empty_append, String.append_empty]

/-- C9 counterexample: `parse("$foo(", raise_errors=True)` does not raise a
ParsingError — it returns the dangling call verbatim, exactly as it does
with `raise_errors=False` — refuting the claim that malformed call syntax
raises under `raise_errors=True` (the repository's `test_parse` runs all its
malformed inputs with `raise_errors=True` and expects them back verbatim). -/
theorem C9_malformed_raise_counterexample :
    demoParser.parse "$foo(" true [] = Except.ok "$foo(" ∧
    demoParser.parse "$foo(" false [] = Except.ok "$foo(" := ⟨by decide, by decide⟩

/-- C9 (amended): input containing malformed call syntax — unbalanced
parentheses or a dangling `$name(` with no closing parenthesis — is returned
verbatim as ordinary text regardless of `raise_errors`; only an unknown
function name raises: with `raise_errors=False` the unknown call is returned
verbatim, with `raise_errors=True` a ParsingError is raised for it. -/
theorem C9_malformed_verbatim_unknown_raises :
    (∀ (nm : String) (re : Bool), nm ≠ "" → nm.data.all isNameChar = true →
      demoParser.parse ("$" ++ nm ++ "(") re [] = Except.ok ("$" ++ nm ++ "(")) ∧
    (∀ re : Bool, demoParser.parse "Test malformed1 This is $foo( and $bar(" re [] =
      Except.ok "Test malformed1 This is $foo( and $bar(") ∧
    (∀ re : Bool, demoParser.parse "Test args11 $foo((" re [] =
      Except.ok "Test args11 $foo((") ∧
    demoParser.parse "$dummy(a, b) and $bar(" false [] =
      Except.ok "$dummy(a, b) and $bar(" ∧
    demoParser.parse "$dummy(a, b) and $bar(" true [] =
      Except.error "ParsingError: unknown function name in $dummy(a, b)" := by
  refine ⟨fun nm re => parse_dangling_name nm re, ?_, ?_, by decide, by decide⟩
  · intro re
    cases re <;> decide
  · intro re
    cases re <;> decide

/-- Companion evaluation for `C9_malformed_verbatim_unknown_raises`,
applying the general dangling-call clause at the name of `test_parse`'s
malformed row. -/
theorem C9_malformed_verbatim_unknown_raises_witness :
    demoParser.parse ("$" ++ "bar" ++ "(") true [] = Except.ok ("$" ++ "bar" ++ "(") :=
  C9_malformed_verbatim_unknown_raises.1 "bar" true (by decide) (by decide)
